import Mathlib

/-!
Verification of the banias frontend publisher (src/frontend/publisher/publisher.go).

The Go program batches inbound events and publishes them to a Pub/Sub topic:

* `Run` is a single-threaded dispatch loop that owns a growable slice
  `messages`, waits on either a flush timer channel or the inbound event
  channel, serializes each arriving event (dropping it on serialization
  error), and flushes the batch either when the timer fires with a
  non-empty buffer or when the buffer reaches `PubsubMaxBatch`.
* `Publish` hands a batch to a worker-pool task that submits every message
  to the broker back-to-back, then awaits every outcome handle in
  submission order, counts failures, reports success and failure counts,
  rearms the flush timer to `PubsubMaxPublishDelay`, and signals completion.
* `NewPublisher` builds the publisher struct and provisions the topic,
  returning the struct together with any provisioning error.

The embedding below is a shallow one: the dispatch loop becomes a step
function on an explicit `LoopState`; the asynchronous publish task is
split into its loop-side handoff (recorded in `attempts` and `pending`)
and its completion (`taskCompleteStep`, which rearms the timer), mirroring
the fact that the Go closure runs on a pool goroutine; the pure
message-counting body of `Publish` is modelled by `publishBody`.
Events, serialized messages and broker outcome handles are opaque type
parameters, and serialization is an arbitrary `E → Option M` function,
matching the fact that the Go code treats ffjson and the broker client as
external capabilities.
-/

namespace Banias

/-- The configuration fields of cfg.Config that publisher.go reads.
Durations are abstracted to natural numbers. -/
structure Config where
  PubsubMaxBatch : Nat
  PubsubMaxPublishDelay : Nat
  MaxPubSubGoroutinesAmount : Nat
  MaxPubSubGoroutineIdleDuration : Nat
  ProjectID : String
  Topic : String
deriving DecidableEq, Repr

/-- The flush timer (time.Timer in Go): whether a deadline is pending
and the duration it was last set to. -/
structure Timer where
  armed : Bool
  deadline : Nat
deriving DecidableEq, Repr

/-- State of the dispatch loop Run, together with the observable history
the claims talk about: `attempts` is the list of batches handed to
Publish tasks in order, `pending` the suffix of those whose task has not
completed yet, `serErrors` counts serialization-error log lines,
`rearms` counts timer Reset calls, `emptyFires` counts timer fires that
found an empty buffer, and `completions` counts finished Publish tasks. -/
structure LoopState (M : Type) where
  messages : List M
  timer : Timer
  attempts : List (List M)
  pending : List (List M)
  serErrors : Nat
  rearms : Nat
  emptyFires : Nat
  completions : Nat
deriving DecidableEq, Repr

/-- The three kinds of events the dispatch loop reacts to: the timer
channel firing, an inbound event arriving, and (asynchronously) the
oldest outstanding Publish task completing. -/
inductive LoopInput (E : Type) where
  | timerFire
  | inbound (ev : E)
  | taskComplete
deriving DecidableEq, Repr

variable {E M H : Type}

/-- The case <-t.C of the select in Run (publisher.go lines 144-152).
A timer only fires while armed; firing consumes the deadline. With an
empty buffer the loop logs, rearms the timer itself and continues; with
a non-empty buffer it hands the batch to a Publish task and sets
messages to nil, leaving the timer deadline untouched (the task rearms
it on completion). -/
def timerFireStep (cfg : Config) (st : LoopState M) : LoopState M :=
  if st.timer.armed then
    if st.messages.length = 0 then
      { st with timer := ⟨true, cfg.PubsubMaxPublishDelay⟩,
                rearms := st.rearms + 1,
                emptyFires := st.emptyFires + 1 }
    else
      { st with messages := [],
                attempts := st.attempts ++ [st.messages],
                pending := st.pending ++ [st.messages],
                timer := ⟨false, st.timer.deadline⟩ }
  else st

/-- The case event := <-c.bqEvents of the select in Run (publisher.go
lines 156-170). Serialization failure logs and drops the one event;
otherwise the message is appended and, when the buffer length equals
PubsubMaxBatch, the batch is handed to a Publish task and messages is
set to nil. The timer is not touched on this path. -/
def inboundStep (cfg : Config) (ser : E → Option M) (ev : E)
    (st : LoopState M) : LoopState M :=
  match ser ev with
  | none => { st with serErrors := st.serErrors + 1 }
  | some m =>
    let ms := st.messages ++ [m]
    if ms.length = cfg.PubsubMaxBatch then
      { st with messages := [],
                attempts := st.attempts ++ [ms],
                pending := st.pending ++ [ms] }
    else
      { st with messages := ms }

/-- Completion of the oldest outstanding Publish task (the tail of the
closure in Publish, publisher.go lines 128-133): the task rearms the
flush timer to PubsubMaxPublishDelay via t.Reset and signals the wait
group. With no outstanding task this input does nothing. -/
def taskCompleteStep (cfg : Config) (st : LoopState M) : LoopState M :=
  match st.pending with
  | [] => st
  | _ :: rest =>
    { st with pending := rest,
              timer := ⟨true, cfg.PubsubMaxPublishDelay⟩,
              rearms := st.rearms + 1,
              completions := st.completions + 1 }

/-- One iteration of the select loop in Run. -/
def runStep (cfg : Config) (ser : E → Option M) (st : LoopState M) :
    LoopInput E → LoopState M
  | .timerFire => timerFireStep cfg st
  | .inbound ev => inboundStep cfg ser ev st
  | .taskComplete => taskCompleteStep cfg st

/-- The state Run starts from: empty buffer of capacity PubsubMaxBatch
and a fresh timer armed with PubsubMaxPublishDelay (publisher.go lines
140-141). -/
def initState (cfg : Config) : LoopState M :=
  { messages := [], timer := ⟨true, cfg.PubsubMaxPublishDelay⟩,
    attempts := [], pending := [], serErrors := 0, rearms := 0,
    emptyFires := 0, completions := 0 }

/-- Running the dispatch loop over a sequence of inputs. -/
def runTrace (cfg : Config) (ser : E → Option M) (st : LoopState M) :
    List (LoopInput E) → LoopState M
  | [] => st
  | i :: is => runTrace cfg ser (runStep cfg ser st i) is

/-- The serialized messages produced by the inbound events of an input
sequence, in arrival order (events whose serialization fails contribute
nothing). -/
def serializedOf (ser : E → Option M) : List (LoopInput E) → List M
  | [] => []
  | .inbound ev :: is =>
      (match ser ev with
       | some m => [m]
       | none => []) ++ serializedOf ser is
  | .timerFire :: is => serializedOf ser is
  | .taskComplete :: is => serializedOf ser is

/-- First loop of the Publish closure (publisher.go lines 115-119): for
each message in order, issue the asynchronous publish call, increment
the total counter and collect the outcome handle; no blocking between
issuances. Returns the total and the handles in submission order. -/
def publishSubmitLoop (pub : M → H) : List M → Nat × List H
  | [] => (0, [])
  | m :: ms =>
    let r := pub m
    let rest := publishSubmitLoop pub ms
    (rest.1 + 1, r :: rest.2)

/-- Second loop of the Publish closure (publisher.go lines 120-126):
await each collected handle in submission order and count the failures.
The broker is abstracted by get, returning a message id and an optional
error per handle. -/
def publishAwaitLoop (get : H → String × Option String) : List H → Nat
  | [] => 0
  | r :: rs =>
    (if ((get r).2).isSome then 1 else 0) + publishAwaitLoop get rs

/-- Observable actions of a Publish task, in program order: submitting a
message to the broker, and awaiting an outcome handle. -/
inductive PubAction (M H : Type) where
  | submit (m : M)
  | await (r : H)
deriving DecidableEq, Repr

/-- The submit actions emitted by the first loop, in order. -/
def submitActions : List M → List (PubAction M H)
  | [] => []
  | m :: ms => .submit m :: submitActions ms

/-- The await actions emitted by the second loop, in order. -/
def awaitActions : List H → List (PubAction M H)
  | [] => []
  | r :: rs => .await r :: awaitActions rs

/-- Aggregate result of one Publish task body. -/
structure PublishReport (M H : Type) where
  total : Nat
  errnum : Nat
  results : List H
  actions : List (PubAction M H)
deriving DecidableEq, Repr

/-- The success count logged by Publish: total minus failures. -/
def PublishReport.success (r : PublishReport M H) : Nat :=
  r.total - r.errnum

/-- The pure body of the Publish closure (publisher.go lines 111-131):
run the submit loop over the whole batch, then the await loop over the
collected handles; the action trace is the submit phase followed by the
await phase because the two for loops run sequentially. -/
def publishBody (pub : M → H) (get : H → String × Option String)
    (messages : List M) : PublishReport M H :=
  let sub := publishSubmitLoop pub messages
  { total := sub.1,
    errnum := publishAwaitLoop get sub.2,
    results := sub.2,
    actions := submitActions messages ++ awaitActions sub.2 }

/-- An abstract Pub/Sub topic handle: obtained by name from the client,
or returned by CreateTopic. -/
inductive TopicHandle where
  | named (topic : String)
  | created (topic : String)
deriving DecidableEq, Repr

/-- The behaviour of the external Pub/Sub client during construction:
whether NewClient fails, what Exists returns, and what CreateTopic
returns. -/
structure PubSubEnv where
  newClientErr : Option String
  existsErr : Option String
  existsOk : Bool
  createTopicHandle : Option TopicHandle
  createTopicErr : Option String
deriving DecidableEq, Repr

/-- createTopicIfNotExists (publisher.go lines 53-77): create a client
(abort on failure with a nil topic), look the topic up by name, check
existence (returning the handle together with the error on failure),
and fall back to CreateTopic when the topic does not exist, returning
whatever handle and error CreateTopic produced. -/
def createTopicIfNotExists (env : PubSubEnv) (projectid topic : String) :
    Option TopicHandle × Option String :=
  match env.newClientErr with
  | some err => (none, some err)
  | none =>
    let t := TopicHandle.named topic
    match env.existsErr with
    | some err => (some t, some err)
    | none =>
      if env.existsOk then (some t, none)
      else (env.createTopicHandle, env.createTopicErr)

/-- The worker pool handle built by pool.NewGoPool, recording its two
configuration arguments. -/
structure GoPool where
  maxGoroutines : Nat
  maxIdleDuration : Nat
deriving DecidableEq, Repr

/-- The fields of the Publisher struct that NewPublisher sets
(publisher.go lines 84-92); the wait group is modelled by its counter. -/
structure Publisher where
  gp : GoPool
  config : Config
  topic : Option TopicHandle
  wg : Nat
  id : Nat
deriving DecidableEq, Repr

/-- NewPublisher (publisher.go lines 79-99): build the worker pool,
provision the topic, construct the struct unconditionally, log the
provisioning error if any, and return the struct together with that
error. -/
def NewPublisher (env : PubSubEnv) (config : Config) (id : Nat) :
    Option Publisher × Option String :=
  let gp : GoPool := ⟨config.MaxPubSubGoroutinesAmount,
                      config.MaxPubSubGoroutineIdleDuration⟩
  let tr := createTopicIfNotExists env config.ProjectID config.Topic
  let p : Publisher :=
    { gp := gp, config := config, topic := tr.1, wg := 0, id := id }
  (some p, tr.2)

/-! ## Helper lemmas -/

theorem runTrace_append (cfg : Config) (ser : E → Option M) (st : LoopState M)
    (is js : List (LoopInput E)) :
    runTrace cfg ser st (is ++ js) = runTrace cfg ser (runTrace cfg ser st is) js := by
  induction is generalizing st with
  | nil => rfl
  | cons i is ih => simp [runTrace, ih]

theorem publishSubmitLoop_eq (pub : M → H) (msgs : List M) :
    publishSubmitLoop pub msgs = (msgs.length, msgs.map pub) := by
  induction msgs with
  | nil => rfl
  | cons m ms ih => simp [publishSubmitLoop, ih]

theorem submitActions_eq (msgs : List M) :
    submitActions (H := H) msgs = msgs.map PubAction.submit := by
  induction msgs with
  | nil => rfl
  | cons m ms ih => simp [submitActions, ih]

theorem awaitActions_eq (rs : List H) :
    awaitActions (M := M) rs = rs.map PubAction.await := by
  induction rs with
  | nil => rfl
  | cons r rs ih => simp [awaitActions, ih]

theorem publishAwaitLoop_eq_countP (get : H → String × Option String)
    (rs : List H) :
    publishAwaitLoop get rs = rs.countP (fun r => ((get r).2).isSome) := by
  induction rs with
  | nil => rfl
  | cons r rs ih =>
    cases h : ((get r).2).isSome <;>
      simp [publishAwaitLoop, ih, List.countP_cons, h, Nat.add_comm]

theorem filterMap_length_of_isSome (f : E → Option M) :
    ∀ l : List E, (∀ e ∈ l, (f e).isSome = true) →
      (l.filterMap f).length = l.length := by
  intro l
  induction l with
  | nil => intro _; rfl
  | cons e rest ih =>
    intro hall
    obtain ⟨m, hm⟩ := Option.isSome_iff_exists.mp (hall e (by simp))
    simp [List.filterMap_cons, hm, ih fun x hx => hall x (by simp [hx])]

/-! ## Theorems for the claims -/

/-- Claim C2: when the flush timer fires with a non-empty open batch, the
dispatch loop makes exactly one publish attempt containing exactly the
buffered messages in arrival order and empties the buffer; when it fires
with an empty batch, no publish attempt is made and the timer is rearmed
immediately in the loop. -/
theorem C2_timer_fire_behaviour (cfg : Config) (st : LoopState M)
    (harm : st.timer.armed = true) :
    (st.messages ≠ [] →
      timerFireStep cfg st =
        { st with messages := [],
                  attempts := st.attempts ++ [st.messages],
                  pending := st.pending ++ [st.messages],
                  timer := ⟨false, st.timer.deadline⟩ }) ∧
    (st.messages = [] →
      timerFireStep cfg st =
        { st with timer := ⟨true, cfg.PubsubMaxPublishDelay⟩,
                  rearms := st.rearms + 1,
                  emptyFires := st.emptyFires + 1 }) := by
  constructor
  · intro hne
    have hlen : ¬st.messages.length = 0 := by
      simpa [List.length_eq_zero] using hne
    simp [timerFireStep, harm, hlen]
  · intro he
    simp [timerFireStep, harm, he]

/-- Configuration used by the concrete witnesses: batch size 3, flush
delay 7. -/
def cfgW : Config := ⟨3, 7, 4, 5, "proj", "topic"⟩

/-- Concrete loop state with one buffered message, used by witnesses. -/
def stW : LoopState Nat := ⟨[5], ⟨true, 7⟩, [], [], 0, 0, 0, 0⟩

/-- The initial loop state over concrete Nat messages, used by witnesses. -/
def initW : LoopState Nat := initState cfgW

theorem C2_timer_fire_behaviour_witness :
    (timerFireStep cfgW stW =
      { stW with messages := [],
                 attempts := stW.attempts ++ [stW.messages],
                 pending := stW.pending ++ [stW.messages],
                 timer := ⟨false, stW.timer.deadline⟩ }) ∧
    (timerFireStep cfgW initW =
      { initW with
          timer := ⟨true, cfgW.PubsubMaxPublishDelay⟩,
          rearms := initW.rearms + 1,
          emptyFires := initW.emptyFires + 1 }) :=
  ⟨(C2_timer_fire_behaviour cfgW stW rfl).1 (by decide),
   (C2_timer_fire_behaviour cfgW initW rfl).2 rfl⟩

/-- Claim C9: a serialization failure is isolated to the one failing
event: the error is logged (serErrors grows by one), the event is
dropped, and the open batch, the attempt history, the pending tasks and
the timer are all unchanged, so the loop simply continues. -/
theorem C9_serialization_failure_isolated (cfg : Config) (ser : E → Option M)
    (ev : E) (st : LoopState M) (h : ser ev = none) :
    inboundStep cfg ser ev st = { st with serErrors := st.serErrors + 1 } := by
  simp [inboundStep, h]

/-- Serialization function used by witnesses: it fails on event 1 and
serializes any other event to itself. -/
def serW : Nat → Option Nat := fun n => if n = 1 then none else some n

theorem C9_serialization_failure_isolated_witness :
    (inboundStep cfgW serW 1 initW =
      { initW with serErrors := initW.serErrors + 1 }) ∧
    (runTrace cfgW serW initW
        [LoopInput.inbound 0, LoopInput.inbound 1, LoopInput.inbound 2,
         LoopInput.timerFire]).attempts = [[0, 2]] ∧
    (runTrace cfgW serW initW
        [LoopInput.inbound 0, LoopInput.inbound 1, LoopInput.inbound 2,
         LoopInput.timerFire]).serErrors = 1 :=
  ⟨C9_serialization_failure_isolated cfgW serW 1 initW rfl,
   by decide, by decide⟩

/-- Claim C6: a size-triggered flush leaves the timer (and the rearm
count) of the dispatch loop untouched while recording exactly one
publish attempt, and the completion of a Publish task is the place that
rearms the timer, resetting it to the configured flush interval
PubsubMaxPublishDelay and performing exactly one rearm. -/
theorem C6_size_flush_timer_frame (cfg : Config) (ser : E → Option M) :
    (∀ (st : LoopState M) (ev : E) (m : M), ser ev = some m →
       (st.messages ++ [m]).length = cfg.PubsubMaxBatch →
       (inboundStep cfg ser ev st).timer = st.timer ∧
       (inboundStep cfg ser ev st).rearms = st.rearms ∧
       (inboundStep cfg ser ev st).attempts
         = st.attempts ++ [st.messages ++ [m]]) ∧
    (∀ st : LoopState M, st.pending ≠ [] →
       (taskCompleteStep cfg st).timer = ⟨true, cfg.PubsubMaxPublishDelay⟩ ∧
       (taskCompleteStep cfg st).rearms = st.rearms + 1) := by
  constructor
  · intro st ev m hm hfull
    simp [inboundStep, hm, hfull]
  · intro st hp
    cases h : st.pending with
    | nil => exact absurd h hp
    | cons b rest => simp [taskCompleteStep, h]

/-- Concrete loop state with one pending publish task, used by witnesses. -/
def stPendW : LoopState Nat := ⟨[], ⟨false, 7⟩, [[0, 1, 2]], [[0, 1, 2]], 0, 0, 0, 0⟩

theorem C6_size_flush_timer_frame_witness :
    ((inboundStep cfgW serW 4 ⟨[2, 3], ⟨true, 7⟩, [], [], 0, 0, 0, 0⟩).timer
        = Timer.mk true 7 ∧
     (inboundStep cfgW serW 4 ⟨[2, 3], ⟨true, 7⟩, [], [], 0, 0, 0, 0⟩).rearms = 0 ∧
     (inboundStep cfgW serW 4 ⟨[2, 3], ⟨true, 7⟩, [], [], 0, 0, 0, 0⟩).attempts
        = [] ++ [[2, 3] ++ [4]]) ∧
    ((taskCompleteStep cfgW stPendW).timer = ⟨true, cfgW.PubsubMaxPublishDelay⟩ ∧
     (taskCompleteStep cfgW stPendW).rearms = stPendW.rearms + 1) :=
  ⟨(C6_size_flush_timer_frame cfgW serW).1
      ⟨[2, 3], ⟨true, 7⟩, [], [], 0, 0, 0, 0⟩ 4 4 rfl (by decide),
   (C6_size_flush_timer_frame cfgW serW).2 stPendW (by decide)⟩

/-- Claim C8: the Publish task submits every message of the batch in
batch order, collecting the outcome handles, and only after all
submissions does it await the handles, in submission order; in
particular the action trace is the full submit phase followed by the
full await phase, and the collected handles are exactly the publish
results of the batch in order. -/
theorem C8_submit_phase_then_await_phase (pub : M → H)
    (get : H → String × Option String) (msgs : List M) :
    (publishBody pub get msgs).actions =
      msgs.map PubAction.submit ++ (msgs.map pub).map PubAction.await ∧
    (publishBody pub get msgs).results = msgs.map pub ∧
    (publishBody pub get msgs).total = msgs.length := by
  refine ⟨?_, ?_, ?_⟩ <;>
    simp [publishBody, publishSubmitLoop_eq, submitActions_eq, awaitActions_eq]

/-- Claim C10: when topic provisioning fails, NewPublisher still returns
a fully constructed Publisher — worker pool built from the configured
sizes, wait group at zero, config and id set, topic whatever handle
provisioning produced (possibly none) — together with the provisioning
error. -/
theorem C10_constructor_returns_struct_and_error (env : PubSubEnv)
    (config : Config) (id : Nat)
    (herr : (createTopicIfNotExists env config.ProjectID config.Topic).2 ≠ none) :
    NewPublisher env config id =
      (some { gp := ⟨config.MaxPubSubGoroutinesAmount,
                     config.MaxPubSubGoroutineIdleDuration⟩,
              config := config,
              topic := (createTopicIfNotExists env config.ProjectID config.Topic).1,
              wg := 0,
              id := id },
       (createTopicIfNotExists env config.ProjectID config.Topic).2) := rfl

/-- Environment where the Exists check fails, used by the C10 witness. -/
def envExistsFails : PubSubEnv :=
  ⟨none, some "exists check failed", false, none, none⟩

theorem C10_constructor_returns_struct_and_error_witness :
    NewPublisher envExistsFails cfgW 2 =
      (some { gp := ⟨cfgW.MaxPubSubGoroutinesAmount,
                     cfgW.MaxPubSubGoroutineIdleDuration⟩,
              config := cfgW,
              topic := (createTopicIfNotExists envExistsFails
                          cfgW.ProjectID cfgW.Topic).1,
              wg := 0,
              id := 2 },
       (createTopicIfNotExists envExistsFails cfgW.ProjectID cfgW.Topic).2) :=
  C10_constructor_returns_struct_and_error envExistsFails cfgW 2 (by decide)

/-- Claim C3: if, in a batch, one message fails to publish and all the
others succeed, the Publish task still submits every message of the
batch to the broker in order (no early abort), increments the total
counter by the batch size, tallies exactly one failure, and logs a
success count of batch size minus one. The failing message sits at
position pre.length of the batch pre ++ m :: post. -/
theorem C3_one_failure_counting (pub : M → H)
    (get : H → String × Option String) (pre post : List M) (m : M)
    (hfail : ((get (pub m)).2).isSome = true)
    (hpre : ∀ x ∈ pre, (get (pub x)).2 = none)
    (hpost : ∀ x ∈ post, (get (pub x)).2 = none) :
    (publishBody pub get (pre ++ m :: post)).results
      = (pre ++ m :: post).map pub ∧
    (publishBody pub get (pre ++ m :: post)).total
      = (pre ++ m :: post).length ∧
    (publishBody pub get (pre ++ m :: post)).errnum = 1 ∧
    (publishBody pub get (pre ++ m :: post)).success
      = (pre ++ m :: post).length - 1 := by
  have herr : (publishBody pub get (pre ++ m :: post)).errnum = 1 := by
    have h1 : pre.countP (fun x => ((get (pub x)).2).isSome) = 0 :=
      List.countP_eq_zero.mpr (by intro x hx; simp [hpre x hx])
    have h2 : post.countP (fun x => ((get (pub x)).2).isSome) = 0 :=
      List.countP_eq_zero.mpr (by intro x hx; simp [hpost x hx])
    have hcomp : ((fun r => ((get r).2).isSome) ∘ pub)
        = fun x => ((get (pub x)).2).isSome := rfl
    simp [publishBody, publishSubmitLoop_eq, publishAwaitLoop_eq_countP,
          List.countP_map, List.countP_append, List.countP_cons,
          hcomp, h1, h2, hfail]
  have htot : (publishBody pub get (pre ++ m :: post)).total
      = (pre ++ m :: post).length := by
    simp [publishBody, publishSubmitLoop_eq]
  refine ⟨?_, htot, herr, ?_⟩
  · simp [publishBody, publishSubmitLoop_eq]
  · show (publishBody pub get (pre ++ m :: post)).total
        - (publishBody pub get (pre ++ m :: post)).errnum = _
    rw [htot, herr]

/-- Broker stub for the C3 witness: the handle is the message itself and
awaiting handle 7 reports an error while every other handle succeeds. -/
def getFail7 : Nat → String × Option String :=
  fun h => if h = 7 then ("", some "publish error") else ("id", none)

theorem C3_one_failure_counting_witness :
    (publishBody id getFail7 ([5, 6] ++ 7 :: [8])).results
      = ([5, 6] ++ 7 :: [8]).map id ∧
    (publishBody id getFail7 ([5, 6] ++ 7 :: [8])).total
      = ([5, 6] ++ 7 :: [8]).length ∧
    (publishBody id getFail7 ([5, 6] ++ 7 :: [8])).errnum = 1 ∧
    (publishBody id getFail7 ([5, 6] ++ 7 :: [8])).success
      = ([5, 6] ++ 7 :: [8]).length - 1 :=
  C3_one_failure_counting id getFail7 [5, 6] [8] 7 (by decide)
    (by decide) (by decide)

/-- Running successful inbound events that never fill the batch only
appends their serialized messages to the open buffer, in arrival order,
and changes nothing else. -/
theorem run_inbound_fill (cfg : Config) (ser : E → Option M)
    (evs : List E) (st : LoopState M)
    (hall : ∀ e ∈ evs, (ser e).isSome = true)
    (hlen : st.messages.length + evs.length < cfg.PubsubMaxBatch) :
    runTrace cfg ser st (evs.map LoopInput.inbound) =
      { st with messages := st.messages ++ evs.filterMap ser } := by
  induction evs generalizing st with
  | nil => simp [runTrace]
  | cons e rest ih =>
    obtain ⟨m, hm⟩ := Option.isSome_iff_exists.mp (hall e (by simp))
    have hlen1 : st.messages.length + (rest.length + 1) < cfg.PubsubMaxBatch :=
      hlen
    have hne : ¬st.messages.length + 1 = cfg.PubsubMaxBatch := by omega
    have hstep : runStep cfg ser st (LoopInput.inbound e)
        = { st with messages := st.messages ++ [m] } := by
      simp [runStep, inboundStep, hm, hne]
    have hrest : ({ st with messages := st.messages ++ [m] } :
        LoopState M).messages.length + rest.length < cfg.PubsubMaxBatch := by
      show (st.messages ++ [m]).length + rest.length < cfg.PubsubMaxBatch
      simp only [List.length_append, List.length_singleton]
      omega
    rw [List.map_cons, runTrace, hstep,
        ih _ (fun x hx => hall x (by simp [hx])) hrest]
    simp [hm, List.filterMap_cons]

/-- Running successful inbound events that fill the batch exactly
flushes once: the whole buffer, old contents followed by the new
serialized messages in arrival order, is handed off as one publish
attempt and the open buffer restarts empty. -/
theorem run_inbound_exact (cfg : Config) (ser : E → Option M)
    (evs : List E) (st : LoopState M)
    (hall : ∀ e ∈ evs, (ser e).isSome = true)
    (hne : evs ≠ [])
    (hlen : st.messages.length + evs.length = cfg.PubsubMaxBatch) :
    runTrace cfg ser st (evs.map LoopInput.inbound) =
      { st with messages := [],
                attempts := st.attempts ++ [st.messages ++ evs.filterMap ser],
                pending := st.pending ++ [st.messages ++ evs.filterMap ser] } := by
  induction evs generalizing st with
  | nil => exact absurd rfl hne
  | cons e rest ih =>
    obtain ⟨m, hm⟩ := Option.isSome_iff_exists.mp (hall e (by simp))
    cases rest with
    | nil =>
      have hlen1 : st.messages.length + 1 = cfg.PubsubMaxBatch := hlen
      have hfull : (st.messages ++ [m]).length = cfg.PubsubMaxBatch := by
        simp only [List.length_append, List.length_singleton]
        omega
      simp [runTrace, runStep, inboundStep, hm, hfull, List.filterMap_cons]
    | cons e2 rest2 =>
      have hlen1 : st.messages.length + (rest2.length + 1 + 1)
          = cfg.PubsubMaxBatch := hlen
      have hnf : ¬st.messages.length + 1 = cfg.PubsubMaxBatch := by omega
      have hstep : runStep cfg ser st (LoopInput.inbound e)
          = { st with messages := st.messages ++ [m] } := by
        simp [runStep, inboundStep, hm, hnf]
      have hrest : ({ st with messages := st.messages ++ [m] } :
          LoopState M).messages.length + (e2 :: rest2).length
            = cfg.PubsubMaxBatch := by
        show (st.messages ++ [m]).length + (rest2.length + 1)
            = cfg.PubsubMaxBatch
        simp only [List.length_append, List.length_singleton]
        omega
      rw [List.map_cons, runTrace, hstep,
          ih _ (fun x hx => hall x (by simp [hx])) (by simp) hrest]
      simp [hm, List.filterMap_cons]

/-- Claim C1: starting from the initial state, a sequence of N
successfully serialized inbound events with no timer fire causes zero
publish attempts when N is below the configured maximum batch size, and
exactly one publish attempt containing all N messages in arrival order
when N equals the maximum. -/
theorem C1_size_triggered_batching (cfg : Config) (ser : E → Option M)
    (evs : List E) (hall : ∀ e ∈ evs, (ser e).isSome = true) :
    (evs.length < cfg.PubsubMaxBatch →
      (runTrace cfg ser (initState cfg) (evs.map LoopInput.inbound)).attempts
        = []) ∧
    (evs.length = cfg.PubsubMaxBatch → 0 < cfg.PubsubMaxBatch →
      (runTrace cfg ser (initState cfg) (evs.map LoopInput.inbound)).attempts
        = [evs.filterMap ser] ∧
      (evs.filterMap ser).length = evs.length) := by
  constructor
  · intro hlt
    rw [run_inbound_fill cfg ser evs (initState cfg) hall
        (by simpa [initState] using hlt)]
    rfl
  · intro heq hpos
    have hne : evs ≠ [] := by
      intro h
      rw [h] at heq
      simp at heq
      omega
    rw [run_inbound_exact cfg ser evs (initState cfg) hall hne
        (by simpa [initState] using heq)]
    exact ⟨by simp [initState], filterMap_length_of_isSome ser evs hall⟩

theorem C1_size_triggered_batching_witness :
    ((runTrace cfgW serW initW
        (([10, 20] : List Nat).map LoopInput.inbound)).attempts = []) ∧
    ((runTrace cfgW serW initW
        (([10, 20, 30] : List Nat).map LoopInput.inbound)).attempts
        = [([10, 20, 30] : List Nat).filterMap serW] ∧
      (([10, 20, 30] : List Nat).filterMap serW).length
        = ([10, 20, 30] : List Nat).length) :=
  ⟨(C1_size_triggered_batching cfgW serW [10, 20] (by decide)).1 (by decide),
   (C1_size_triggered_batching cfgW serW [10, 20, 30] (by decide)).2
      (by decide) (by decide)⟩

theorem serializedOf_cons (ser : E → Option M) (i : LoopInput E)
    (is : List (LoopInput E)) :
    serializedOf ser (i :: is) = serializedOf ser [i] ++ serializedOf ser is := by
  cases i with
  | timerFire => simp [serializedOf]
  | taskComplete => simp [serializedOf]
  | inbound ev => cases hser : ser ev <;> simp [serializedOf, hser]

/-- Single-step form of the batching conservation law: a loop step
extends the concatenation of all flushed batches and the open buffer by
exactly the serialized messages of that step. -/
theorem step_partition (cfg : Config) (ser : E → Option M) (st : LoopState M)
    (i : LoopInput E) :
    (runStep cfg ser st i).attempts.flatten ++ (runStep cfg ser st i).messages
      = st.attempts.flatten ++ st.messages ++ serializedOf ser [i] := by
  cases i with
  | timerFire =>
    by_cases ha : st.timer.armed
    · by_cases he : st.messages.length = 0
      · simp [runStep, timerFireStep, ha, he, serializedOf]
      · simp [runStep, timerFireStep, ha, he, serializedOf]
    · simp [runStep, timerFireStep, ha, serializedOf]
  | inbound ev =>
    cases hser : ser ev with
    | none => simp [runStep, inboundStep, hser, serializedOf]
    | some m =>
      by_cases hf : st.messages.length + 1 = cfg.PubsubMaxBatch
      · simp [runStep, inboundStep, hser, hf, serializedOf]
      · simp [runStep, inboundStep, hser, hf, serializedOf]
  | taskComplete =>
    cases hp : st.pending with
    | nil => simp [runStep, taskCompleteStep, hp, serializedOf]
    | cons b rest => simp [runStep, taskCompleteStep, hp, serializedOf]

/-- Trace form of the batching conservation law. -/
theorem trace_partition (cfg : Config) (ser : E → Option M)
    (inputs : List (LoopInput E)) :
    ∀ st : LoopState M,
      (runTrace cfg ser st inputs).attempts.flatten
          ++ (runTrace cfg ser st inputs).messages
        = st.attempts.flatten ++ st.messages ++ serializedOf ser inputs := by
  induction inputs with
  | nil => intro st; simp [runTrace, serializedOf]
  | cons i is ih =>
    intro st
    rw [runTrace, ih (runStep cfg ser st i), step_partition,
        serializedOf_cons ser i is]
    simp [List.append_assoc]

/-- Claim C4: after any flush, size- or time-triggered, the buffer the
dispatch loop keeps using restarts empty while the flushed batch is
recorded as its own publish attempt, and over any whole run the
concatenation of all publish attempts followed by the open buffer is
exactly the sequence of successfully serialized events — so no event
ever appears in two publish attempts and a handed-off batch is never
touched again. -/
theorem C4_flush_starts_fresh_buffer (cfg : Config) (ser : E → Option M) :
    (∀ inputs : List (LoopInput E),
      (runTrace cfg ser (initState cfg) inputs).attempts.flatten
          ++ (runTrace cfg ser (initState cfg) inputs).messages
        = serializedOf ser inputs) ∧
    (∀ st : LoopState M, st.timer.armed = true → st.messages ≠ [] →
      (timerFireStep cfg st).messages = [] ∧
      (timerFireStep cfg st).attempts = st.attempts ++ [st.messages]) ∧
    (∀ (st : LoopState M) (ev : E) (m : M), ser ev = some m →
      (st.messages ++ [m]).length = cfg.PubsubMaxBatch →
      (inboundStep cfg ser ev st).messages = [] ∧
      (inboundStep cfg ser ev st).attempts
        = st.attempts ++ [st.messages ++ [m]]) := by
  refine ⟨?_, ?_, ?_⟩
  · intro inputs
    simpa [initState] using trace_partition cfg ser inputs (initState cfg)
  · intro st harm hne
    have hlen : ¬st.messages.length = 0 := by
      simpa [List.length_eq_zero] using hne
    constructor <;> simp [timerFireStep, harm, hlen]
  · intro st ev m hm hfull
    constructor <;> simp [inboundStep, hm, hfull]

theorem C4_flush_starts_fresh_buffer_witness :
    ((runTrace cfgW serW initW
        [LoopInput.inbound 0, LoopInput.timerFire,
         LoopInput.inbound 2]).attempts.flatten
        ++ (runTrace cfgW serW initW
            [LoopInput.inbound 0, LoopInput.timerFire,
             LoopInput.inbound 2]).messages
      = serializedOf serW
          [LoopInput.inbound 0, LoopInput.timerFire, LoopInput.inbound 2]) ∧
    ((timerFireStep cfgW stW).messages = [] ∧
     (timerFireStep cfgW stW).attempts = stW.attempts ++ [stW.messages]) ∧
    ((inboundStep cfgW serW 4 ⟨[2, 3], ⟨true, 7⟩, [], [], 0, 0, 0, 0⟩).messages
        = [] ∧
     (inboundStep cfgW serW 4 ⟨[2, 3], ⟨true, 7⟩, [], [], 0, 0, 0, 0⟩).attempts
        = [] ++ [[2, 3] ++ [4]]) :=
  ⟨(C4_flush_starts_fresh_buffer cfgW serW).1
      [LoopInput.inbound 0, LoopInput.timerFire, LoopInput.inbound 2],
   (C4_flush_starts_fresh_buffer cfgW serW).2.1 stW rfl (by decide),
   (C4_flush_starts_fresh_buffer cfgW serW).2.2
      ⟨[2, 3], ⟨true, 7⟩, [], [], 0, 0, 0, 0⟩ 4 4 rfl (by decide)⟩

/-- Claim C5 counterexample: after an inbound event and a timer fire,
the batch has been handed to a Publish task that has not completed, and
the flush timer holds no pending deadline at all — refuting the claim
that the timer has exactly one live deadline at every point. -/
theorem C5_counterexample_disarmed_window :
    (runTrace cfgW serW initW
        [LoopInput.inbound 0, LoopInput.timerFire]).timer.armed = false ∧
    (runTrace cfgW serW initW
        [LoopInput.inbound 0, LoopInput.timerFire]).pending ≠ [] := by
  decide

/-- Conservation of timer rearms along any run: rearms always equal
empty timer fires plus completed Publish tasks, and the number of
publish attempts equals completed plus still-pending tasks. -/
theorem rearm_accounting_inv (cfg : Config) (ser : E → Option M)
    (inputs : List (LoopInput E)) :
    ∀ st : LoopState M,
      st.rearms = st.emptyFires + st.completions →
      st.attempts.length = st.completions + st.pending.length →
      ((runTrace cfg ser st inputs).rearms
          = (runTrace cfg ser st inputs).emptyFires
            + (runTrace cfg ser st inputs).completions ∧
       (runTrace cfg ser st inputs).attempts.length
          = (runTrace cfg ser st inputs).completions
            + (runTrace cfg ser st inputs).pending.length) := by
  induction inputs with
  | nil => intro st h1 h2; exact ⟨h1, h2⟩
  | cons i is ih =>
    intro st h1 h2
    refine ih (runStep cfg ser st i) ?_ ?_
    · cases i with
      | timerFire =>
        by_cases ha : st.timer.armed
        · by_cases he : st.messages.length = 0
          · simp [runStep, timerFireStep, ha, he]
            omega
          · simpa [runStep, timerFireStep, ha, he] using h1
        · simpa [runStep, timerFireStep, ha] using h1
      | inbound ev =>
        cases hser : ser ev with
        | none => simpa [runStep, inboundStep, hser] using h1
        | some m =>
          by_cases hf : st.messages.length + 1 = cfg.PubsubMaxBatch
          · simpa [runStep, inboundStep, hser, hf] using h1
          · simpa [runStep, inboundStep, hser, hf] using h1
      | taskComplete =>
        cases hp : st.pending with
        | nil => simpa [runStep, taskCompleteStep, hp] using h1
        | cons b rest =>
          simp [runStep, taskCompleteStep, hp]
          omega
    · cases i with
      | timerFire =>
        by_cases ha : st.timer.armed
        · by_cases he : st.messages.length = 0
          · simpa [runStep, timerFireStep, ha, he] using h2
          · simp [runStep, timerFireStep, ha, he]
            omega
        · simpa [runStep, timerFireStep, ha] using h2
      | inbound ev =>
        cases hser : ser ev with
        | none => simpa [runStep, inboundStep, hser] using h2
        | some m =>
          by_cases hf : st.messages.length + 1 = cfg.PubsubMaxBatch
          · simp [runStep, inboundStep, hser, hf]
            omega
          · simpa [runStep, inboundStep, hser, hf] using h2
      | taskComplete =>
        cases hp : st.pending with
        | nil => simpa [runStep, taskCompleteStep, hp] using h2
        | cons b rest =>
          simp [hp] at h2
          simp [runStep, taskCompleteStep, hp]
          omega

/-- Claim C5 (amended): every code path that consumes a flush rearms the
timer exactly once, but for a non-empty flush that rearm happens only at
Publish task completion: along any run, the rearm count equals empty
timer fires plus completed Publish tasks, the publish attempts split
into completed and still-pending ones, and whenever no task is
outstanding every consumed flush has been rearmed exactly once. The
unamended claim that exactly one deadline is live at every point fails
while a timer-triggered publish is in flight. -/
theorem C5_amended_one_rearm_per_flush (cfg : Config) (ser : E → Option M)
    (inputs : List (LoopInput E)) :
    (runTrace cfg ser (initState cfg) inputs).rearms
        = (runTrace cfg ser (initState cfg) inputs).emptyFires
          + (runTrace cfg ser (initState cfg) inputs).completions ∧
    (runTrace cfg ser (initState cfg) inputs).attempts.length
        = (runTrace cfg ser (initState cfg) inputs).completions
          + (runTrace cfg ser (initState cfg) inputs).pending.length ∧
    ((runTrace cfg ser (initState cfg) inputs).pending = [] →
      (runTrace cfg ser (initState cfg) inputs).rearms
        = (runTrace cfg ser (initState cfg) inputs).emptyFires
          + (runTrace cfg ser (initState cfg) inputs).attempts.length) := by
  obtain ⟨h1, h2⟩ := rearm_accounting_inv cfg ser inputs (initState cfg) rfl rfl
  refine ⟨h1, h2, ?_⟩
  intro hp
  have h0 : (runTrace cfg ser (initState cfg) inputs).pending.length = 0 := by
    rw [hp]
    rfl
  omega

theorem C5_amended_one_rearm_per_flush_witness :
    (runTrace cfgW serW initW
        [LoopInput.inbound 0, LoopInput.timerFire,
         LoopInput.taskComplete]).rearms
      = (runTrace cfgW serW initW
          [LoopInput.inbound 0, LoopInput.timerFire,
           LoopInput.taskComplete]).emptyFires
        + (runTrace cfgW serW initW
            [LoopInput.inbound 0, LoopInput.timerFire,
             LoopInput.taskComplete]).attempts.length :=
  (C5_amended_one_rearm_per_flush cfgW serW
      [LoopInput.inbound 0, LoopInput.timerFire,
       LoopInput.taskComplete]).2.2 (by decide)

/-- In every reachable state of the dispatch loop the open batch stays
strictly below the configured maximum, provided the maximum is positive. -/
theorem messages_lt_of_lt (cfg : Config) (ser : E → Option M)
    (hpos : 0 < cfg.PubsubMaxBatch) (inputs : List (LoopInput E)) :
    ∀ st : LoopState M, st.messages.length < cfg.PubsubMaxBatch →
      (runTrace cfg ser st inputs).messages.length < cfg.PubsubMaxBatch := by
  induction inputs with
  | nil => intro st h; exact h
  | cons i is ih =>
    intro st h
    refine ih (runStep cfg ser st i) ?_
    cases i with
    | timerFire =>
      by_cases ha : st.timer.armed
      · by_cases he : st.messages.length = 0
        · simpa [runStep, timerFireStep, ha, he] using h
        · simpa [runStep, timerFireStep, ha, he] using hpos
      · simpa [runStep, timerFireStep, ha] using h
    | inbound ev =>
      cases hser : ser ev with
      | none => simpa [runStep, inboundStep, hser] using h
      | some m =>
        by_cases hf : st.messages.length + 1 = cfg.PubsubMaxBatch
        · simpa [runStep, inboundStep, hser, hf] using hpos
        · have hlt : (st.messages ++ [m]).length < cfg.PubsubMaxBatch := by
            simp only [List.length_append, List.length_singleton]
            omega
          simpa [runStep, inboundStep, hser, hf] using hlt
    | taskComplete =>
      cases hp : st.pending with
      | nil => simpa [runStep, taskCompleteStep, hp] using h
      | cons b rest => simpa [runStep, taskCompleteStep, hp] using h

/-- Claim C7: for every reachable state of the dispatch loop the open
batch never holds more messages than the configured maximum batch size
(assuming a positive configured maximum). -/
theorem C7_batch_never_exceeds_max (cfg : Config) (ser : E → Option M)
    (hpos : 0 < cfg.PubsubMaxBatch) (inputs : List (LoopInput E)) :
    (runTrace cfg ser (initState cfg) inputs).messages.length
      ≤ cfg.PubsubMaxBatch :=
  Nat.le_of_lt (messages_lt_of_lt cfg ser hpos inputs (initState cfg)
    (by simpa [initState] using hpos))

theorem C7_batch_never_exceeds_max_witness :
    (runTrace cfgW serW initW
        [LoopInput.inbound 0, LoopInput.inbound 2, LoopInput.inbound 3,
         LoopInput.inbound 4]).messages.length ≤ cfgW.PubsubMaxBatch :=
  C7_batch_never_exceeds_max cfgW serW (by decide)
    [LoopInput.inbound 0, LoopInput.inbound 2, LoopInput.inbound 3,
     LoopInput.inbound 4]

end Banias
